import Mathlib

/-!
Shallow embedding of the notes backend (`src/api/notes_router.py`,
`src/api/models.py`, `src/api/db.py`).

The SQLite table `notes` is modelled as a list of rows in insertion
(rowid) order together with the AUTOINCREMENT counter.  Timestamps
produced by `utc_now_iso` are modelled as natural numbers (ISO-8601 UTC
strings at second precision compare chronologically, so their order is
that of `Nat`); each handler receives the value of its `utc_now_iso()`
call as an explicit `now` argument.  `HTTPException` outcomes and
FastAPI parameter-validation rejections are modelled by `Except ApiError`.
A mutating handler returns its result together with the post-commit
store; on an error path the store is returned unchanged (the handler
raises before any write is committed).
-/

/-- A row of the `notes` table (also the shape of `NoteOut` in
`models.py`: `_row_to_note_out` copies the six columns unchanged). -/
structure Note where
  id : Nat
  title : String
  content : String
  created_date : Nat
  modified_date : Nat
  deleted_date : Option Nat
deriving Repr, DecidableEq

/-- The database: rows in rowid order plus the AUTOINCREMENT counter
that supplies `cur.lastrowid` for the next insert. -/
structure Store where
  rows : List Note
  nextId : Nat
deriving Repr, DecidableEq

/-- Client-visible error outcomes: `notFound` is `HTTPException(404)`;
`invalidArgument` covers `HTTPException(400)` and FastAPI's rejection of
parameters violating the declared `Query`/`Path`/`Literal` constraints. -/
inductive ApiError where
  | notFound
  | invalidArgument
deriving Repr, DecidableEq

/-- `models.NoteCreate`: both fields required. -/
structure NoteCreate where
  title : String
  content : String
deriving Repr, DecidableEq

/-- `models.NoteUpdate`: both fields optional. -/
structure NoteUpdate where
  title : Option String
  content : Option String
deriving Repr, DecidableEq

/-- `models.PaginatedNotes`. -/
structure PaginatedNotes where
  total : Nat
  items : List Note
  limit : Int
  offset : Int
deriving Repr, DecidableEq

/-- Predicate of `WHERE id = ? AND deleted_date IS NULL`. -/
def isActiveWithId (note_id : Nat) (n : Note) : Bool :=
  n.id == note_id && n.deleted_date.isNone

/-- `SELECT ... FROM notes WHERE id = ? AND deleted_date IS NULL` with
`fetchone()`: first matching row in rowid order, if any. -/
def findActive (s : Store) (note_id : Nat) : Option Note :=
  s.rows.find? (isActiveWithId note_id)

/-- `SELECT ... FROM notes WHERE id = ?` with `fetchone()`. -/
def findById (s : Store) (note_id : Nat) : Option Note :=
  s.rows.find? (fun n => n.id == note_id)

/-- Rows with `deleted_date IS NULL`, in rowid order. -/
def activeRows (s : Store) : List Note :=
  s.rows.filter (fun n => n.deleted_date.isNone)

/-- The `_SORT_FIELDS` mapping of `notes_router.py` (keys; each key maps
to the identically named column). -/
def SORT_FIELDS : List String :=
  ["created_date", "modified_date", "title", "id"]

/-- Column comparison used by `ORDER BY {sort_col} ASC`. -/
def keyLe (sort_by : String) (a b : Note) : Bool :=
  if sort_by == "id" then decide (a.id ≤ b.id)
  else if sort_by == "title" then decide (a.title ≤ b.title)
  else if sort_by == "created_date" then decide (a.created_date ≤ b.created_date)
  else decide (a.modified_date ≤ b.modified_date)

/-- `ORDER BY {sort_col} {sort_dir}`: `sort_dir = "ASC" if
sort_order.lower() == "asc" else "DESC"`. -/
def noteCmp (sort_by sort_order : String) (a b : Note) : Bool :=
  if sort_order == "asc" then keyLe sort_by a b else keyLe sort_by b a

/-- FastAPI's declared constraints on `list_notes` parameters:
`limit : Query(ge=1, le=200)`, `offset : Query(ge=0)`,
`sort_by : Literal["created_date","modified_date","title","id"]`,
`sort_order : Literal["asc","desc"]`.  A request violating any of them
is rejected before the handler body runs. -/
def valid_list_params (limit offset : Int) (sort_by sort_order : String) : Bool :=
  decide (1 ≤ limit) && decide (limit ≤ 200) && decide (0 ≤ offset) &&
    SORT_FIELDS.contains sort_by && (sort_order == "asc" || sort_order == "desc")

/-- `GET /notes` (`list_notes`): count of active rows, then active rows
ordered by the sort column/direction with `LIMIT ? OFFSET ?`.  Ties keep
rowid order (`mergeSort` is stable, matching SQLite's natural scan). -/
def list_notes (s : Store) (limit offset : Int) (sort_by sort_order : String) :
    Except ApiError PaginatedNotes :=
  if !valid_list_params limit offset sort_by sort_order then
    .error .invalidArgument
  else
    let total := (activeRows s).length
    let sorted := (activeRows s).mergeSort (noteCmp sort_by sort_order)
    let items := (sorted.drop offset.toNat).take limit.toNat
    .ok ⟨total, items, limit, offset⟩

/-- Defaults declared on `list_notes`'s `Query` parameters:
`limit=20`, `offset=0`, `sort_by="modified_date"`, `sort_order="desc"`. -/
def DEFAULT_LIMIT : Int := 20

def DEFAULT_OFFSET : Int := 0

def DEFAULT_SORT_BY : String := "modified_date"

def DEFAULT_SORT_ORDER : String := "desc"

/-- `GET /notes` with every query parameter omitted: FastAPI fills in
the declared defaults before invoking the handler. -/
def list_notes_default (s : Store) : Except ApiError PaginatedNotes :=
  list_notes s DEFAULT_LIMIT DEFAULT_OFFSET DEFAULT_SORT_BY DEFAULT_SORT_ORDER

/-- `GET /notes/{note_id}` (`get_note`): `Path(..., ge=1)`, then the
active-row lookup; 404 when no row matches. -/
def get_note (s : Store) (note_id : Nat) : Except ApiError Note :=
  if note_id < 1 then .error .invalidArgument
  else
    match findActive s note_id with
    | none => .error .notFound
    | some row => .ok row

/-- `POST /notes` (`create_note`): `INSERT` with both timestamps set to
the one `utc_now_iso()` value and `deleted_date` NULL, then re-read by
`lastrowid`.  The unreachable `none` branch models `fetchone()`
returning no row. -/
def create_note (s : Store) (payload : NoteCreate) (now : Nat) :
    Except ApiError Note × Store :=
  let note : Note :=
    { id := s.nextId, title := payload.title, content := payload.content
      created_date := now, modified_date := now, deleted_date := none }
  let s' : Store := ⟨s.rows ++ [note], s.nextId + 1⟩
  match findById s' s.nextId with
  | none => (.error .notFound, s')
  | some row => (.ok row, s')

/-- Effect on one row of `UPDATE notes SET title = ?, content = ?,
modified_date = ? WHERE id = ?`. -/
def applyUpdate (note_id : Nat) (new_title new_content : String) (now : Nat)
    (n : Note) : Note :=
  if n.id == note_id then
    { n with title := new_title, content := new_content, modified_date := now }
  else n

/-- `PUT /notes/{note_id}` (`update_note`): 400 when both payload fields
are `None`; 404 when no active row matches; otherwise merge provided
fields over the existing row, stamp `modified_date`, write, re-read. -/
def update_note (s : Store) (note_id : Nat) (payload : NoteUpdate) (now : Nat) :
    Except ApiError Note × Store :=
  if note_id < 1 then (.error .invalidArgument, s)
  else if payload.title.isNone && payload.content.isNone then
    (.error .invalidArgument, s)
  else
    match findActive s note_id with
    | none => (.error .notFound, s)
    | some existing =>
      let new_title := payload.title.getD existing.title
      let new_content := payload.content.getD existing.content
      let s' : Store :=
        ⟨s.rows.map (applyUpdate note_id new_title new_content now), s.nextId⟩
      match findById s' note_id with
      | none => (.error .notFound, s')
      | some row => (.ok row, s')

/-- Effect on one row of `UPDATE notes SET deleted_date = ?,
modified_date = ? WHERE id = ?`. -/
def applyDelete (note_id : Nat) (now : Nat) (n : Note) : Note :=
  if n.id == note_id then
    { n with deleted_date := some now, modified_date := now }
  else n

/-- `DELETE /notes/{note_id}` (`delete_note`): 404 when no active row
matches; otherwise stamp `deleted_date` and `modified_date`, re-read. -/
def delete_note (s : Store) (note_id : Nat) (now : Nat) :
    Except ApiError Note × Store :=
  if note_id < 1 then (.error .invalidArgument, s)
  else
    match findActive s note_id with
    | none => (.error .notFound, s)
    | some _ =>
      let s' : Store := ⟨s.rows.map (applyDelete note_id now), s.nextId⟩
      match findById s' note_id with
      | none => (.error .notFound, s')
      | some row => (.ok row, s')

/-- Well-formedness guaranteed by the schema: `id INTEGER PRIMARY KEY
AUTOINCREMENT` makes row ids unique and below the counter. -/
def Wf (s : Store) : Prop :=
  (s.rows.map Note.id).Nodup ∧ ∀ n ∈ s.rows, n.id < s.nextId

/-- Timestamp invariant at clock value `t`: every row has
`created_date ≤ modified_date ≤ t`. -/
def TimeInv (s : Store) (t : Nat) : Prop :=
  ∀ n ∈ s.rows, n.created_date ≤ n.modified_date ∧ n.modified_date ≤ t

/-- Positionally, every row keeps its `id`, and a row whose
`deleted_date` was non-null never has it set back to null. -/
def preservesDeleted (old new : List Note) : Prop :=
  ∀ (i : Nat) (h : i < old.length) (h2 : i < new.length),
    (new.get ⟨i, h2⟩).id = (old.get ⟨i, h⟩).id ∧
      ((old.get ⟨i, h⟩).deleted_date.isSome →
        (new.get ⟨i, h2⟩).deleted_date.isSome)

/-- Positionally, every row whose id differs from `note_id` is
unchanged. -/
def framedExcept (note_id : Nat) (old new : List Note) : Prop :=
  old.length = new.length ∧
    ∀ (i : Nat) (h : i < old.length) (h2 : i < new.length),
      (old.get ⟨i, h⟩).id ≠ note_id → new.get ⟨i, h2⟩ = old.get ⟨i, h⟩

/-! ## Basic lemmas about lookups -/

theorem findActive_spec {s : Store} {note_id : Nat} {e : Note}
    (h : findActive s note_id = some e) :
    e ∈ s.rows ∧ e.id = note_id ∧ e.deleted_date = none := by
  have hm := List.mem_of_find?_eq_some h
  have hp := List.find?_some h
  simp only [isActiveWithId, Bool.and_eq_true, beq_iff_eq,
    Option.isNone_iff_eq_none] at hp
  exact ⟨hm, hp.1, hp.2⟩

theorem findById_spec {s : Store} {note_id : Nat} {e : Note}
    (h : findById s note_id = some e) :
    e ∈ s.rows ∧ e.id = note_id := by
  have hm := List.mem_of_find?_eq_some h
  have hp := List.find?_some h
  simp only [beq_iff_eq] at hp
  exact ⟨hm, hp⟩

theorem id_applyUpdate (note_id : Nat) (t c : String) (now : Nat) (n : Note) :
    (applyUpdate note_id t c now n).id = n.id := by
  unfold applyUpdate; split <;> rfl

theorem id_applyDelete (note_id now : Nat) (n : Note) :
    (applyDelete note_id now n).id = n.id := by
  unfold applyDelete; split <;> rfl

theorem findById_map {rows : List Note} {k note_id : Nat} {f : Note → Note}
    (hf : ∀ n, (f n).id = n.id) :
    findById ⟨rows.map f, k⟩ note_id =
      (findById ⟨rows, k⟩ note_id).map f := by
  simp only [findById, List.find?_map]
  have hcomp : ((fun n : Note => n.id == note_id) ∘ f) =
      fun n : Note => n.id == note_id := by
    funext n
    simp [hf]
  rw [hcomp]

theorem mem_unique_of_wf {s : Store} (hwf : Wf s) {a b : Note}
    (ha : a ∈ s.rows) (hb : b ∈ s.rows) (hid : a.id = b.id) : a = b :=
  List.inj_on_of_nodup_map hwf.1 ha hb hid

theorem findById_of_findActive {s : Store} {note_id : Nat} {e : Note}
    (hwf : Wf s) (h : findActive s note_id = some e) :
    findById s note_id = some e := by
  obtain ⟨hm, hid, -⟩ := findActive_spec h
  have hsome : (findById s note_id).isSome := by
    rw [findById, List.find?_isSome]
    exact ⟨e, hm, by simp [hid]⟩
  obtain ⟨x, hx⟩ := Option.isSome_iff_exists.mp hsome
  obtain ⟨hxm, hxid⟩ := findById_spec hx
  have hxe : x = e := mem_unique_of_wf hwf hxm hm (by rw [hxid, hid])
  rw [hx, hxe]

/-! ## Characterization of the successful paths -/

theorem create_note_spec {s : Store} (hwf : Wf s) (p : NoteCreate) (now : Nat) :
    create_note s p now =
      (.ok ⟨s.nextId, p.title, p.content, now, now, none⟩,
       ⟨s.rows ++ [⟨s.nextId, p.title, p.content, now, now, none⟩],
        s.nextId + 1⟩) := by
  have hnone : s.rows.find? (fun n => n.id == s.nextId) = none := by
    rw [List.find?_eq_none]
    intro x hx
    have := hwf.2 x hx
    simp only [beq_iff_eq]
    omega
  unfold create_note
  simp only [findById, List.find?_append, hnone, Option.none_or,
    List.find?_cons, List.find?_nil]
  simp

theorem update_note_ok {s : Store} {note_id : Nat} {p : NoteUpdate} {now : Nat}
    {e : Note} (hwf : Wf s) (hid1 : 1 ≤ note_id)
    (hfind : findActive s note_id = some e)
    (hp : p.title.isSome ∨ p.content.isSome) :
    update_note s note_id p now =
      (.ok { e with title := p.title.getD e.title,
                    content := p.content.getD e.content,
                    modified_date := now },
       ⟨s.rows.map
          (applyUpdate note_id (p.title.getD e.title)
            (p.content.getD e.content) now),
        s.nextId⟩) := by
  have hnotlt : ¬ note_id < 1 := by omega
  have hpp : (p.title.isNone && p.content.isNone) = false := by
    cases ht : p.title <;> cases hc : p.content <;> simp_all
  have heid : e.id = note_id := (findActive_spec hfind).2.1
  have hre : findById
      ⟨s.rows.map (applyUpdate note_id (p.title.getD e.title)
        (p.content.getD e.content) now), s.nextId⟩ note_id =
      some (applyUpdate note_id (p.title.getD e.title)
        (p.content.getD e.content) now e) := by
    rw [findById_map (fun n => id_applyUpdate _ _ _ _ n)]
    have : findById ⟨s.rows, s.nextId⟩ note_id = some e :=
      findById_of_findActive hwf hfind
    rw [this]
    rfl
  unfold update_note
  simp only [hnotlt, if_false, hpp, hfind, hre]
  simp [applyUpdate, heid]

theorem delete_note_ok {s : Store} {note_id now : Nat} {e : Note}
    (hwf : Wf s) (hid1 : 1 ≤ note_id)
    (hfind : findActive s note_id = some e) :
    delete_note s note_id now =
      (.ok { e with deleted_date := some now, modified_date := now },
       ⟨s.rows.map (applyDelete note_id now), s.nextId⟩) := by
  have hnotlt : ¬ note_id < 1 := by omega
  have heid : e.id = note_id := (findActive_spec hfind).2.1
  have hre : findById ⟨s.rows.map (applyDelete note_id now), s.nextId⟩
      note_id = some (applyDelete note_id now e) := by
    rw [findById_map (fun n => id_applyDelete _ _ n)]
    have : findById ⟨s.rows, s.nextId⟩ note_id = some e :=
      findById_of_findActive hwf hfind
    rw [this]
    rfl
  unfold delete_note
  simp only [hnotlt, if_false, hfind, hre]
  simp [applyDelete, heid]

/-! ## Inversion and stamping lemmas -/

theorem delete_note_ok_inv {s : Store} {note_id now : Nat} {n : Note}
    {s' : Store} (h : delete_note s note_id now = (.ok n, s')) :
    1 ≤ note_id ∧ (∃ e, findActive s note_id = some e) ∧
      s' = ⟨s.rows.map (applyDelete note_id now), s.nextId⟩ ∧
      findById s' note_id = some n := by
  unfold delete_note at h
  split at h
  · simp at h
  · rename_i hlt
    split at h
    · simp at h
    · rename_i e hfind
      dsimp only at h
      split at h
      · simp at h
      · rename_i row hrow
        obtain ⟨h1, h2⟩ := Prod.mk.injEq .. ▸ h
        refine ⟨by omega, ⟨e, hfind⟩, h2.symm, ?_⟩
        rw [← h2, hrow]
        simp at h1
        rw [h1]

theorem findActive_map_applyDelete (rows : List Note) (k note_id now : Nat) :
    findActive ⟨rows.map (applyDelete note_id now), k⟩ note_id = none := by
  rw [findActive, List.find?_eq_none]
  intro x hx
  obtain ⟨n, hn, rfl⟩ := List.mem_map.mp hx
  unfold applyDelete isActiveWithId
  split
  · simp
  · rename_i h
    simp_all

theorem deleted_stamped {rows : List Note} {k note_id now : Nat} {n : Note}
    (h : findById ⟨rows.map (applyDelete note_id now), k⟩ note_id = some n) :
    n.deleted_date = some now ∧ n.modified_date = now := by
  obtain ⟨hm, hid⟩ := findById_spec h
  obtain ⟨x, hx, rfl⟩ := List.mem_map.mp hm
  unfold applyDelete at hid ⊢
  split
  · exact ⟨rfl, rfl⟩
  · rename_i hne
    simp_all

theorem modified_stamped {rows : List Note} {k note_id now : Nat}
    {t c : String} {n : Note}
    (h : findById ⟨rows.map (applyUpdate note_id t c now), k⟩ note_id
      = some n) : n.modified_date = now := by
  obtain ⟨hm, hid⟩ := findById_spec h
  obtain ⟨x, hx, rfl⟩ := List.mem_map.mp hm
  unfold applyUpdate at hid ⊢
  split
  · rfl
  · rename_i hne
    simp_all

/-! ## Frame and invariant-preservation lemmas -/

theorem preservesDeleted_map {rows : List Note} {f : Note → Note}
    (hf : ∀ n, (f n).id = n.id ∧
      (n.deleted_date.isSome → (f n).deleted_date.isSome)) :
    preservesDeleted rows (rows.map f) := by
  intro i h h2
  simp only [List.get_eq_getElem, List.getElem_map]
  exact hf _

theorem preservesDeleted_append (rows tail : List Note) :
    preservesDeleted rows (rows ++ tail) := by
  intro i h h2
  have hget : (rows ++ tail).get ⟨i, h2⟩ = rows.get ⟨i, h⟩ := by
    simp [List.getElem_append_left h]
  rw [hget]
  exact ⟨rfl, fun hs => hs⟩

theorem preservesDeleted_refl (rows : List Note) :
    preservesDeleted rows rows := by
  intro i h h2
  exact ⟨rfl, fun hs => hs⟩

theorem framedExcept_map {rows : List Note} {note_id : Nat} {f : Note → Note}
    (hf : ∀ n, n.id ≠ note_id → f n = n) :
    framedExcept note_id rows (rows.map f) := by
  refine ⟨(List.length_map _ _).symm, ?_⟩
  intro i h h2 hne
  simp only [List.get_eq_getElem, List.getElem_map] at hne ⊢
  exact hf _ hne

theorem TimeInv_mono {s : Store} {t t' : Nat} (h : TimeInv s t)
    (htt : t ≤ t') : TimeInv s t' := by
  intro n hn
  obtain ⟨h1, h2⟩ := h n hn
  exact ⟨h1, le_trans h2 htt⟩

theorem TimeInv_map {rows : List Note} {k k' t now : Nat} {f : Note → Note}
    (ht : t ≤ now) (hrows : TimeInv ⟨rows, k⟩ t)
    (hf : ∀ n, n.created_date ≤ n.modified_date → n.modified_date ≤ now →
      (f n).created_date ≤ (f n).modified_date ∧ (f n).modified_date ≤ now) :
    TimeInv ⟨rows.map f, k'⟩ now := by
  intro n hn
  obtain ⟨x, hx, rfl⟩ := List.mem_map.mp hn
  obtain ⟨h1, h2⟩ := hrows x hx
  exact hf x h1 (le_trans h2 ht)

theorem TimeInv_applyUpdate {rows : List Note} {k k' t now note_id : Nat}
    {tt c : String} (ht : t ≤ now) (hrows : TimeInv ⟨rows, k⟩ t) :
    TimeInv ⟨rows.map (applyUpdate note_id tt c now), k'⟩ now := by
  refine TimeInv_map ht hrows ?_
  intro n h1 h2
  unfold applyUpdate
  split
  · exact ⟨le_trans h1 h2, le_refl now⟩
  · exact ⟨h1, h2⟩

theorem TimeInv_applyDelete {rows : List Note} {k k' t now note_id : Nat}
    (ht : t ≤ now) (hrows : TimeInv ⟨rows, k⟩ t) :
    TimeInv ⟨rows.map (applyDelete note_id now), k'⟩ now := by
  refine TimeInv_map ht hrows ?_
  intro n h1 h2
  unfold applyDelete
  split
  · exact ⟨le_trans h1 h2, le_refl now⟩
  · exact ⟨h1, h2⟩

/-! ## Properties of the sort comparator -/

theorem deleted_applyUpdate (note_id : Nat) (t c : String) (now : Nat)
    (n : Note) :
    (applyUpdate note_id t c now n).deleted_date = n.deleted_date := by
  unfold applyUpdate; split <;> rfl

theorem deleted_applyDelete_isSome (note_id now : Nat) (n : Note)
    (h : n.deleted_date.isSome) :
    (applyDelete note_id now n).deleted_date.isSome := by
  unfold applyDelete; split <;> simp_all

theorem keyLe_trans (f : String) (a b c : Note) (h1 : keyLe f a b = true)
    (h2 : keyLe f b c = true) : keyLe f a c = true := by
  unfold keyLe at h1 h2 ⊢
  split_ifs at h1 h2 ⊢ <;>
    simp only [decide_eq_true_eq] at h1 h2 ⊢ <;>
    exact le_trans h1 h2

theorem keyLe_total (f : String) (a b : Note) :
    keyLe f a b = true ∨ keyLe f b a = true := by
  unfold keyLe
  split_ifs <;> simp only [decide_eq_true_eq] <;> exact le_total _ _

theorem noteCmp_trans (f o : String) (a b c : Note)
    (h1 : noteCmp f o a b = true) (h2 : noteCmp f o b c = true) :
    noteCmp f o a c = true := by
  unfold noteCmp at h1 h2 ⊢
  split_ifs at h1 h2 ⊢
  · exact keyLe_trans f a b c h1 h2
  · exact keyLe_trans f c b a h2 h1

theorem noteCmp_total (f o : String) (a b : Note) :
    (noteCmp f o a b || noteCmp f o b a) = true := by
  unfold noteCmp
  split_ifs <;> rw [Bool.or_eq_true]
  · exact keyLe_total f a b
  · exact keyLe_total f b a

/-! ## Characterization of the listing -/

theorem list_notes_ok {s : Store} {limit offset : Int}
    {sort_by sort_order : String}
    (hv : valid_list_params limit offset sort_by sort_order = true) :
    list_notes s limit offset sort_by sort_order =
      .ok ⟨(activeRows s).length,
           (((activeRows s).mergeSort (noteCmp sort_by sort_order)).drop
              offset.toNat).take limit.toNat,
           limit, offset⟩ := by
  unfold list_notes
  rw [hv]
  simp

theorem mem_activeRows_deleted_none {s : Store} {n : Note}
    (h : n ∈ activeRows s) : n ∈ s.rows ∧ n.deleted_date = none := by
  have := List.mem_filter.mp h
  exact ⟨this.1, by simpa [Option.isNone_iff_eq_none] using this.2⟩

/-! ## Store shape after each mutation -/

theorem update_note_store_cases (s : Store) (note_id : Nat) (p : NoteUpdate)
    (now : Nat) :
    (update_note s note_id p now).2.rows = s.rows ∨
      ∃ t c, (update_note s note_id p now).2.rows =
        s.rows.map (applyUpdate note_id t c now) := by
  unfold update_note
  split
  · exact Or.inl rfl
  · split
    · exact Or.inl rfl
    · split
      · exact Or.inl rfl
      · dsimp only
        split
        · exact Or.inr ⟨_, _, rfl⟩
        · exact Or.inr ⟨_, _, rfl⟩

theorem delete_note_store_cases (s : Store) (note_id now : Nat) :
    (delete_note s note_id now).2.rows = s.rows ∨
      (delete_note s note_id now).2.rows =
        s.rows.map (applyDelete note_id now) := by
  unfold delete_note
  split
  · exact Or.inl rfl
  · split
    · exact Or.inl rfl
    · dsimp only
      split
      · exact Or.inr rfl
      · exact Or.inr rfl

theorem create_note_store_rows (s : Store) (p : NoteCreate) (now : Nat) :
    ∃ note, (create_note s p now).2.rows = s.rows ++ [note] := by
  unfold create_note
  dsimp only
  split
  · exact ⟨_, rfl⟩
  · exact ⟨_, rfl⟩

theorem update_note_ok_inv {s : Store} {note_id : Nat} {p : NoteUpdate}
    {now : Nat} {n : Note} {s' : Store}
    (h : update_note s note_id p now = (.ok n, s')) :
    ∃ e, findActive s note_id = some e ∧
      s' = ⟨s.rows.map (applyUpdate note_id (p.title.getD e.title)
        (p.content.getD e.content) now), s.nextId⟩ ∧
      findById s' note_id = some n := by
  unfold update_note at h
  split at h
  · simp at h
  · split at h
    · simp at h
    · split at h
      · simp at h
      · rename_i e hfind
        dsimp only at h
        split at h
        · simp at h
        · rename_i row hrow
          obtain ⟨h1, h2⟩ := Prod.mk.injEq .. ▸ h
          simp only [Except.ok.injEq] at h1
          exact ⟨e, hfind, h2.symm, by rw [← h2, hrow, h1]⟩

/-! ## Claim theorems -/

/-- C1: for every id (in the valid path range), if no active note with
that id exists — the id is absent or the note's `deleted_date` is
non-null — then Get, Update (with a non-empty payload) and SoftDelete
each fail with `NotFound` and leave the store unchanged; a soft-deleted
note is therefore indistinguishable from a non-existent one through
these operations. -/
theorem notFound_when_no_active_note (s : Store) (note_id : Nat)
    (p : NoteUpdate) (now now2 : Nat) (hid : 1 ≤ note_id)
    (hfind : findActive s note_id = none)
    (hp : p.title.isSome = true ∨ p.content.isSome = true) :
    get_note s note_id = .error .notFound ∧
      update_note s note_id p now = (.error .notFound, s) ∧
      delete_note s note_id now2 = (.error .notFound, s) := by
  have hnotlt : ¬ note_id < 1 := by omega
  have hpp : (p.title.isNone && p.content.isNone) = false := by
    cases ht : p.title <;> cases hc : p.content <;> simp_all
  refine ⟨?_, ?_, ?_⟩
  · unfold get_note
    simp [hnotlt, hfind]
  · unfold update_note
    simp [hnotlt, hpp, hfind]
  · unfold delete_note
    simp [hnotlt, hfind]

theorem notFound_when_no_active_note_witness :
    get_note ⟨[⟨1, "T", "C", 0, 0, some 3⟩], 2⟩ 1 = .error .notFound ∧
      update_note ⟨[⟨1, "T", "C", 0, 0, some 3⟩], 2⟩ 1 ⟨some "x", none⟩ 4 =
        (.error .notFound, ⟨[⟨1, "T", "C", 0, 0, some 3⟩], 2⟩) ∧
      delete_note ⟨[⟨1, "T", "C", 0, 0, some 3⟩], 2⟩ 1 5 =
        (.error .notFound, ⟨[⟨1, "T", "C", 0, 0, some 3⟩], 2⟩) :=
  notFound_when_no_active_note ⟨[⟨1, "T", "C", 0, 0, some 3⟩], 2⟩ 1
    ⟨some "x", none⟩ 4 5 (by decide) rfl (Or.inl rfl)

/-- C6: for every id, an Update whose payload provides neither `title`
nor `content` fails with `InvalidArgument` and returns the store
unchanged (the check precedes every storage access). -/
theorem update_without_fields_invalidArgument (s : Store)
    (note_id now : Nat) :
    update_note s note_id ⟨none, none⟩ now = (.error .invalidArgument, s) := by
  unfold update_note
  split
  · rfl
  · simp

/-- C4: Create assigns both timestamps from the single `now()` value
(so `created_date == modified_date` right after creation), leaves
`deleted_date` null, takes the storage-assigned id, and returns exactly
the note re-read from storage after the insert. -/
theorem create_assigns_timestamps_and_id (s : Store) (p : NoteCreate)
    (now : Nat) (hwf : Wf s) :
    ∃ r s', create_note s p now = (.ok r, s') ∧
      r.created_date = now ∧ r.modified_date = now ∧
      r.created_date = r.modified_date ∧ r.deleted_date = none ∧
      r.id = s.nextId ∧ r.title = p.title ∧ r.content = p.content ∧
      findById s' r.id = some r ∧ s'.rows = s.rows ++ [r] ∧
      s'.nextId = s.nextId + 1 := by
  refine ⟨⟨s.nextId, p.title, p.content, now, now, none⟩,
    ⟨s.rows ++ [⟨s.nextId, p.title, p.content, now, now, none⟩], s.nextId + 1⟩,
    create_note_spec hwf p now, rfl, rfl, rfl, rfl, rfl, rfl, rfl, ?_, rfl, rfl⟩
  have hnone : s.rows.find? (fun n => n.id == s.nextId) = none := by
    rw [List.find?_eq_none]
    intro x hx
    have := hwf.2 x hx
    simp only [beq_iff_eq]
    omega
  show findById _ s.nextId = _
  rw [findById, List.find?_append, hnone, Option.none_or]
  simp

theorem create_assigns_timestamps_and_id_witness :
    ∃ r s', create_note ⟨[⟨1, "T", "C", 0, 0, none⟩], 2⟩ ⟨"a", "b"⟩ 5 =
        (.ok r, s') ∧
      r.created_date = 5 ∧ r.modified_date = 5 ∧
      r.created_date = r.modified_date ∧ r.deleted_date = none ∧
      r.id = (⟨[⟨1, "T", "C", 0, 0, none⟩], 2⟩ : Store).nextId ∧
      r.title = "a" ∧ r.content = "b" ∧
      findById s' r.id = some r ∧
      s'.rows = (⟨[⟨1, "T", "C", 0, 0, none⟩], 2⟩ : Store).rows ++ [r] ∧
      s'.nextId = (⟨[⟨1, "T", "C", 0, 0, none⟩], 2⟩ : Store).nextId + 1 :=
  create_assigns_timestamps_and_id ⟨[⟨1, "T", "C", 0, 0, none⟩], 2⟩ ⟨"a", "b"⟩ 5
    ⟨by decide, by decide⟩

/-- C3: Update of an existing active note with at least one field
provided overwrites exactly the provided fields (`getD`: a provided
field wins, an absent field keeps the stored value), sets
`modified_date` to `now`, leaves `id`, `created_date` and
`deleted_date` unchanged, leaves every other row untouched, and
returns the post-update stored state. -/
theorem update_merges_provided_fields (s : Store) (note_id : Nat)
    (p : NoteUpdate) (now : Nat) (e : Note) (hwf : Wf s)
    (hid : 1 ≤ note_id) (hfind : findActive s note_id = some e)
    (hp : p.title.isSome = true ∨ p.content.isSome = true) :
    ∃ r s', update_note s note_id p now = (.ok r, s') ∧
      r.title = p.title.getD e.title ∧
      r.content = p.content.getD e.content ∧
      r.modified_date = now ∧ r.id = e.id ∧
      r.created_date = e.created_date ∧ r.deleted_date = e.deleted_date ∧
      findById s' note_id = some r ∧
      framedExcept note_id s.rows s'.rows ∧ s'.nextId = s.nextId := by
  refine ⟨⟨e.id, p.title.getD e.title, p.content.getD e.content,
      e.created_date, now, e.deleted_date⟩,
    ⟨s.rows.map (applyUpdate note_id (p.title.getD e.title)
      (p.content.getD e.content) now), s.nextId⟩,
    update_note_ok hwf hid hfind hp, rfl, rfl, rfl, rfl, rfl, rfl, ?_, ?_, rfl⟩
  · have heid : e.id = note_id := (findActive_spec hfind).2.1
    rw [findById_map (fun n => id_applyUpdate _ _ _ _ n),
      findById_of_findActive hwf hfind]
    simp [applyUpdate, heid]
  · exact framedExcept_map (fun n hne => by simp [applyUpdate, hne])

theorem update_merges_provided_fields_witness :
    ∃ r s', update_note ⟨[⟨1, "T", "C", 0, 0, none⟩], 2⟩ 1
        ⟨none, some "C2"⟩ 7 = (.ok r, s') ∧
      r.title = "T" ∧ r.content = "C2" ∧ r.modified_date = 7 ∧
      findById s' 1 = some r := by
  obtain ⟨r, s', h1, h2, h3, h4, h5, h6, h7, h8, h9, h10⟩ :=
    update_merges_provided_fields ⟨[⟨1, "T", "C", 0, 0, none⟩], 2⟩ 1
      ⟨none, some "C2"⟩ 7 ⟨1, "T", "C", 0, 0, none⟩
      ⟨by decide, by decide⟩ (by decide) rfl (Or.inr rfl)
  exact ⟨r, s', h1, h2, h3, h4, h8⟩

/-- C9: a provided empty string counts as a provided field:
`Update(id, title="", content absent)` stores the empty title while the
content keeps its stored value — only an absent (`None`) field falls
back, so absence and empty string are distinguished. -/
theorem update_empty_string_overwrites (s : Store) (note_id now : Nat)
    (e : Note) (hwf : Wf s) (hid : 1 ≤ note_id)
    (hfind : findActive s note_id = some e) :
    ∃ r s', update_note s note_id ⟨some "", none⟩ now = (.ok r, s') ∧
      r.title = "" ∧ r.content = e.content ∧ r.modified_date = now ∧
      findById s' note_id = some r := by
  refine ⟨⟨e.id, "", e.content, e.created_date, now, e.deleted_date⟩,
    ⟨s.rows.map (applyUpdate note_id "" e.content now), s.nextId⟩,
    update_note_ok hwf hid hfind (Or.inl rfl), rfl, rfl, rfl, ?_⟩
  have heid : e.id = note_id := (findActive_spec hfind).2.1
  rw [findById_map (fun n => id_applyUpdate _ _ _ _ n),
    findById_of_findActive hwf hfind]
  simp [applyUpdate, heid]

theorem update_empty_string_overwrites_witness :
    ∃ r s', update_note ⟨[⟨1, "T", "C", 0, 0, none⟩], 2⟩ 1
        ⟨some "", none⟩ 7 = (.ok r, s') ∧
      r.title = "" ∧ r.content = "C" ∧ r.modified_date = 7 ∧
      findById s' 1 = some r :=
  update_empty_string_overwrites ⟨[⟨1, "T", "C", 0, 0, none⟩], 2⟩ 1 7
    ⟨1, "T", "C", 0, 0, none⟩ ⟨by decide, by decide⟩ (by decide) rfl

/-- C2: the DELETED state is terminal.  Across Create, Update and
SoftDelete, a row whose `deleted_date` is non-null never has it set
back to null (and no row changes id), and a second SoftDelete of an id
that was just soft-deleted fails with `NotFound` instead of repeating
the soft-delete. -/
theorem soft_delete_terminal (s : Store) (id1 id2 id3 : Nat)
    (pc : NoteCreate) (p : NoteUpdate) (now now2 : Nat) :
    preservesDeleted s.rows (create_note s pc now).2.rows ∧
      preservesDeleted s.rows (update_note s id1 p now).2.rows ∧
      preservesDeleted s.rows (delete_note s id2 now).2.rows ∧
      ∀ n s', delete_note s id3 now = (.ok n, s') →
        (delete_note s' id3 now2).1 = .error .notFound := by
  refine ⟨?_, ?_, ?_, ?_⟩
  · obtain ⟨note, hnote⟩ := create_note_store_rows s pc now
    rw [hnote]
    exact preservesDeleted_append _ _
  · rcases update_note_store_cases s id1 p now with h | ⟨t, c, h⟩ <;> rw [h]
    · exact preservesDeleted_refl _
    · exact preservesDeleted_map (fun n =>
        ⟨id_applyUpdate _ _ _ _ n, fun hs => by
          rw [deleted_applyUpdate]; exact hs⟩)
  · rcases delete_note_store_cases s id2 now with h | h <;> rw [h]
    · exact preservesDeleted_refl _
    · exact preservesDeleted_map (fun n =>
        ⟨id_applyDelete _ _ n, deleted_applyDelete_isSome _ _ n⟩)
  · intro n s' hdel
    obtain ⟨hge, ⟨e, hfind⟩, hs', hre⟩ := delete_note_ok_inv hdel
    have hnone : findActive s' id3 = none := by
      rw [hs']
      exact findActive_map_applyDelete s.rows s.nextId id3 now
    have hnotlt : ¬ id3 < 1 := by omega
    unfold delete_note
    simp [hnotlt, hnone]

theorem soft_delete_terminal_witness :
    (delete_note (delete_note ⟨[⟨1, "T", "C", 0, 0, none⟩], 2⟩ 1 5).2 1 6).1 =
      .error .notFound := by
  have h := (soft_delete_terminal ⟨[⟨1, "T", "C", 0, 0, none⟩], 2⟩ 1 1 1
    ⟨"a", "b"⟩ ⟨none, none⟩ 5 6).2.2.2
  exact h ⟨1, "T", "C", 0, 5, some 5⟩ ⟨[⟨1, "T", "C", 0, 5, some 5⟩], 2⟩ rfl

/-- C8: assuming the clock is non-decreasing (`t ≤ now` for the next
call), every operation preserves `created_date ≤ modified_date` (with
`modified_date` never ahead of the clock) for every stored row; a
successful Update refreshes `modified_date` to `now`, and a successful
SoftDelete sets `deleted_date` and `modified_date` to the same `now`. -/
theorem timestamps_monotone_and_refreshed (s : Store) (t now : Nat)
    (id1 id2 : Nat) (pc : NoteCreate) (p : NoteUpdate)
    (hinv : TimeInv s t) (ht : t ≤ now) :
    TimeInv (create_note s pc now).2 now ∧
      TimeInv (update_note s id1 p now).2 now ∧
      TimeInv (delete_note s id2 now).2 now ∧
      (∀ r s', update_note s id1 p now = (.ok r, s') →
        r.modified_date = now) ∧
      (∀ r s', delete_note s id2 now = (.ok r, s') →
        r.deleted_date = some now ∧ r.modified_date = now) := by
  have hinv' : TimeInv s now := TimeInv_mono hinv ht
  refine ⟨?_, ?_, ?_, ?_, ?_⟩
  · obtain ⟨note, hnote⟩ := create_note_store_rows s pc now
    intro n hn
    rw [hnote] at hn
    rcases List.mem_append.mp hn with h | h
    · exact hinv' n h
    · have hnid : (create_note s pc now).2.rows =
          s.rows ++ [⟨s.nextId, pc.title, pc.content, now, now, none⟩] := by
        unfold create_note
        dsimp only
        split <;> rfl
      have hlist : [note] =
          [(⟨s.nextId, pc.title, pc.content, now, now, none⟩ : Note)] :=
        List.append_cancel_left (hnote.symm.trans hnid)
      have hnoteq : note = ⟨s.nextId, pc.title, pc.content, now, now, none⟩ := by
        simpa using hlist
      rw [hnoteq] at h
      rcases List.mem_singleton.mp h with rfl
      exact ⟨le_refl now, le_refl now⟩
  · intro n hn
    rcases update_note_store_cases s id1 p now with h | ⟨tt, c, h⟩ <;>
      rw [h] at hn
    · exact hinv' n hn
    · exact @TimeInv_applyUpdate s.rows s.nextId 0 t now id1 tt c ht hinv n hn
  · intro n hn
    rcases delete_note_store_cases s id2 now with h | h <;> rw [h] at hn
    · exact hinv' n hn
    · exact @TimeInv_applyDelete s.rows s.nextId 0 t now id2 ht hinv n hn
  · intro r s' hup
    obtain ⟨e, hfind, hs', hre⟩ := update_note_ok_inv hup
    rw [hs'] at hre
    exact modified_stamped hre
  · intro r s' hdel
    obtain ⟨hge, ⟨e, hfind⟩, hs', hre⟩ := delete_note_ok_inv hdel
    rw [hs'] at hre
    exact deleted_stamped hre

theorem timestamps_monotone_and_refreshed_witness :
    TimeInv (create_note ⟨[⟨1, "T", "C", 0, 0, none⟩], 2⟩ ⟨"a", "b"⟩ 5).2 5 ∧
      TimeInv (update_note ⟨[⟨1, "T", "C", 0, 0, none⟩], 2⟩ 1
        ⟨some "x", none⟩ 5).2 5 ∧
      TimeInv (delete_note ⟨[⟨1, "T", "C", 0, 0, none⟩], 2⟩ 1 5).2 5 ∧
      (∀ r s', update_note ⟨[⟨1, "T", "C", 0, 0, none⟩], 2⟩ 1
        ⟨some "x", none⟩ 5 = (.ok r, s') → r.modified_date = 5) ∧
      (∀ r s', delete_note ⟨[⟨1, "T", "C", 0, 0, none⟩], 2⟩ 1 5 = (.ok r, s') →
        r.deleted_date = some 5 ∧ r.modified_date = 5) :=
  timestamps_monotone_and_refreshed ⟨[⟨1, "T", "C", 0, 0, none⟩], 2⟩ 0 5 1 1
    ⟨"a", "b"⟩ ⟨some "x", none⟩ (by intro n hn; simp_all) (by decide)

/-- General contract of a valid listing call; shared by the listing
claims below. -/
theorem list_notes_contract (s : Store) (limit offset : Int)
    (sort_by sort_order : String)
    (hv : valid_list_params limit offset sort_by sort_order = true) :
    ∃ pg, list_notes s limit offset sort_by sort_order = .ok pg ∧
      pg.total = (activeRows s).length ∧
      pg.limit = limit ∧ pg.offset = offset ∧
      (∀ n ∈ pg.items, n ∈ s.rows ∧ n.deleted_date = none) ∧
      pg.items.length =
        min limit.toNat ((activeRows s).length - offset.toNat) ∧
      pg.items.length ≤ limit.toNat ∧
      pg.items.Pairwise (fun a b => noteCmp sort_by sort_order a b = true) ∧
      (limit = 1 → offset = 0 → 2 ≤ (activeRows s).length →
        pg.items.length = 1 ∧ pg.total = (activeRows s).length) := by
  refine ⟨_, list_notes_ok hv, rfl, rfl, rfl, ?_, ?_, ?_, ?_, ?_⟩
  · intro n hn
    have hsub : List.Sublist
        ((((activeRows s).mergeSort
          (noteCmp sort_by sort_order)).drop offset.toNat).take limit.toNat)
        ((activeRows s).mergeSort (noteCmp sort_by sort_order)) :=
      (List.take_sublist _ _).trans (List.drop_sublist _ _)
    have hmem : n ∈ (activeRows s).mergeSort (noteCmp sort_by sort_order) :=
      hsub.mem hn
    rw [List.mem_mergeSort] at hmem
    exact mem_activeRows_deleted_none hmem
  · rw [List.length_take, List.length_drop, List.length_mergeSort]
  · rw [List.length_take, List.length_drop, List.length_mergeSort]
    exact Nat.min_le_left _ _
  · have hsorted := List.sorted_mergeSort
      (fun a b c => noteCmp_trans sort_by sort_order a b c)
      (fun a b => noteCmp_total sort_by sort_order a b)
      (activeRows s)
    exact hsorted.sublist ((List.take_sublist _ _).trans (List.drop_sublist _ _))
  · intro h1 h0 hN
    subst h1
    subst h0
    refine ⟨?_, rfl⟩
    rw [List.length_take, List.length_drop, List.length_mergeSort]
    simp only [Int.toNat_one, Int.toNat_zero]
    omega

/-- C5: for every valid `limit`, `offset`, `sort_by`, `sort_order`,
List succeeds with `{total, items, limit, offset}` where `total` counts
all active notes regardless of the window, every item is an active
stored note, the items are ordered by the requested sort key and
direction, `items.length = min limit (total - offset)` (hence at most
`limit`), and in particular `limit=1, offset=0` over `N ≥ 2` active
notes yields exactly one item with `total = N`. -/
theorem list_pagination_contract (s : Store) (limit offset : Int)
    (sort_by sort_order : String)
    (hv : valid_list_params limit offset sort_by sort_order = true) :
    ∃ pg, list_notes s limit offset sort_by sort_order = .ok pg ∧
      pg.total = (activeRows s).length ∧
      pg.limit = limit ∧ pg.offset = offset ∧
      (∀ n ∈ pg.items, n ∈ s.rows ∧ n.deleted_date = none) ∧
      pg.items.length =
        min limit.toNat ((activeRows s).length - offset.toNat) ∧
      pg.items.length ≤ limit.toNat ∧
      pg.items.Pairwise (fun a b => noteCmp sort_by sort_order a b = true) ∧
      (limit = 1 → offset = 0 → 2 ≤ (activeRows s).length →
        pg.items.length = 1 ∧ pg.total = (activeRows s).length) :=
  list_notes_contract s limit offset sort_by sort_order hv

theorem list_pagination_contract_witness :
    ∃ pg, list_notes ⟨[⟨1, "a", "", 0, 0, none⟩, ⟨2, "b", "", 1, 1, none⟩], 3⟩
        1 0 "id" "asc" = .ok pg ∧
      pg.total = (activeRows
        ⟨[⟨1, "a", "", 0, 0, none⟩, ⟨2, "b", "", 1, 1, none⟩], 3⟩).length ∧
      pg.limit = 1 ∧ pg.offset = 0 ∧
      (∀ n ∈ pg.items,
        n ∈ (⟨[⟨1, "a", "", 0, 0, none⟩, ⟨2, "b", "", 1, 1, none⟩], 3⟩ :
          Store).rows ∧ n.deleted_date = none) ∧
      pg.items.length = min (1 : Int).toNat ((activeRows
        ⟨[⟨1, "a", "", 0, 0, none⟩, ⟨2, "b", "", 1, 1, none⟩], 3⟩).length -
          (0 : Int).toNat) ∧
      pg.items.length ≤ (1 : Int).toNat ∧
      pg.items.Pairwise (fun a b => noteCmp "id" "asc" a b = true) ∧
      ((1 : Int) = 1 → (0 : Int) = 0 → 2 ≤ (activeRows
          ⟨[⟨1, "a", "", 0, 0, none⟩, ⟨2, "b", "", 1, 1, none⟩], 3⟩).length →
        pg.items.length = 1 ∧ pg.total = (activeRows
          ⟨[⟨1, "a", "", 0, 0, none⟩, ⟨2, "b", "", 1, 1, none⟩], 3⟩).length) :=
  list_pagination_contract
    ⟨[⟨1, "a", "", 0, 0, none⟩, ⟨2, "b", "", 1, 1, none⟩], 3⟩
    1 0 "id" "asc" (by decide)

/-- C7: List rejects out-of-range pagination parameters — any `limit`
outside `[1, 200]` or negative `offset` — and any unknown `sort_by` or
`sort_order` value, with an `InvalidArgument` outcome produced before
the listing query runs. -/
theorem list_rejects_invalid_params (s : Store) (limit offset : Int)
    (sort_by sort_order : String)
    (hbad : limit < 1 ∨ 200 < limit ∨ offset < 0 ∨
      sort_by ∉ SORT_FIELDS ∨ (sort_order ≠ "asc" ∧ sort_order ≠ "desc")) :
    list_notes s limit offset sort_by sort_order =
      .error .invalidArgument := by
  have hv : valid_list_params limit offset sort_by sort_order = false := by
    unfold valid_list_params
    rcases hbad with h | h | h | h | ⟨h1, h2⟩
    · have hd : decide (1 ≤ limit) = false := decide_eq_false (by omega)
      rw [hd]
      simp
    · have hd : decide (limit ≤ 200) = false := decide_eq_false (by omega)
      rw [hd]
      simp
    · have hd : decide (0 ≤ offset) = false := decide_eq_false (by omega)
      rw [hd]
      simp
    · have hd : SORT_FIELDS.contains sort_by = false := by
        cases hc : SORT_FIELDS.contains sort_by
        · rfl
        · exact absurd (List.elem_iff.mp hc) h
      rw [hd]
      simp
    · have hd : (sort_order == "asc" || sort_order == "desc") = false := by
        simp [h1, h2]
      rw [hd]
      simp
  unfold list_notes
  rw [hv]
  simp

theorem list_rejects_invalid_params_witness :
    list_notes ⟨[⟨1, "a", "", 0, 0, none⟩], 2⟩ 0 0 "id" "asc" =
      .error .invalidArgument :=
  list_rejects_invalid_params ⟨[⟨1, "a", "", 0, 0, none⟩], 2⟩ 0 0 "id" "asc"
    (Or.inl (by decide))

/-- C10: a bare List call uses the declared defaults `limit=20`,
`offset=0`, `sort_by="modified_date"`, `sort_order="desc"`, and so
returns up to 20 active notes ordered with the most recently modified
first. -/
theorem list_defaults_most_recent_first (s : Store) :
    DEFAULT_LIMIT = 20 ∧ DEFAULT_OFFSET = 0 ∧
      DEFAULT_SORT_BY = "modified_date" ∧ DEFAULT_SORT_ORDER = "desc" ∧
      list_notes_default s = list_notes s 20 0 "modified_date" "desc" ∧
      ∃ pg, list_notes_default s = .ok pg ∧
        pg.limit = 20 ∧ pg.offset = 0 ∧
        pg.total = (activeRows s).length ∧
        pg.items.length ≤ 20 ∧
        (∀ n ∈ pg.items, n ∈ s.rows ∧ n.deleted_date = none) ∧
        pg.items.Pairwise (fun a b => b.modified_date ≤ a.modified_date) := by
  have hv : valid_list_params 20 0 "modified_date" "desc" = true := by decide
  obtain ⟨pg, hpg, htotal, hlim, hoff, hitems, hlen, hle, hpair, -⟩ :=
    list_notes_contract s 20 0 "modified_date" "desc" hv
  refine ⟨rfl, rfl, rfl, rfl, rfl, pg, hpg, hlim, hoff, htotal, ?_, hitems, ?_⟩
  · simpa using hle
  · refine hpair.imp ?_
    intro a b hab
    have hconv : noteCmp "modified_date" "desc" a b =
        decide (b.modified_date ≤ a.modified_date) := rfl
    rw [hconv] at hab
    exact of_decide_eq_true hab
